import Mathlib

/-!
# Stack trace tree of the debugger plugin (`debugger/src/stree.c`)

A shallow embedding of the thread/frame tree kept by `stree.c`, of the GTK
objects it drives (a `GtkTreeStore`, `GtkTreeRowReference`s in a `GHashTable`,
the single selection of the tree view), and of the two callbacks it calls.

Conventions of the embedding.

* The store is the forest of its rows, kept the way GLib's `GNode` keeps it:
  every row with its first child and its next sibling.
* A `GtkTreePath` is the list of its indices.  A row reference is the path GTK
  tracks for it: shifted on every insertion or deletion before it, dropped
  when its row (or an ancestor of it) is deleted.
* A `GtkTreeIter` local is `unset` until a call writes it, `invalid` after a
  failed lookup (GTK stamps it 0), or points to a row.  Handing GTK an `invalid`
  iterator, a NULL path or a NULL reference trips a checked precondition
  (`g_return_if_fail`): the call logs and returns without effect.  Handing it an
  `unset` iterator, or dereferencing a NULL frame, has no defined behaviour:
  `Outcome.undefined`.
* The callbacks `select_frame` and `move_to_line` are recorded in a log.
-/

namespace Stree

/-! ## Data -/

/-- A path in the tree: the row indices from the top level down. -/
abbrev GtkTreePath := List Nat

/-- The frame record (`frame` of `debug_module.h`), with the fields `stree.c` reads. -/
structure frame where
  address : String
  function : String
  file : Option String
  line : Int
  have_source : Bool
deriving DecidableEq, Repr

/-- One row of the store: the three columns `S_FRAME`, `S_THREAD_ID`, `S_ACTIVE`. -/
structure Row where
  S_FRAME : Option frame
  S_THREAD_ID : Int
  S_ACTIVE : Bool
deriving DecidableEq, Repr

/-- A freshly inserted row: every column holds the default of its type. -/
def Row.blank : Row := ⟨none, 0, false⟩

/-- The rows of one level of the store, each with its children and the rows after it. -/
inductive Rows where
  | nil : Rows
  | cons (row : Row) (children : Rows) (next : Rows) : Rows
deriving DecidableEq, Repr

/-- A local `GtkTreeIter`. -/
inductive GtkTreeIter where
  | unset : GtkTreeIter
  | invalid : GtkTreeIter
  | row (path : GtkTreePath) : GtkTreeIter
deriving DecidableEq, Repr

/-- A call of one of the two callbacks given to `stree_init`. -/
inductive Call where
  | select_frame (frame_number : Int) : Call
  | move_to_line (file : Option String) (line : Int) : Call
deriving DecidableEq, Repr

/-- The module state: the statics of `stree.c`, the selection of the tree view
and the log of callback calls. -/
structure State where
  store : Rows
  threads : List (Int × Option GtkTreePath)
  active_thread_id : Int
  active_frame_index : Int
  selection : Option GtkTreePath
  calls : List Call
deriving DecidableEq, Repr

/-- What a call of a function of `stree.c` comes to. -/
inductive Outcome (α : Type) where
  | done (a : α) : Outcome α
  | undefined : Outcome α
  | out_of_fuel : Outcome α
deriving DecidableEq, Repr

/-- The state after `stree_init`: empty store, empty table, `active_thread_id = 0`,
`active_frame_index = 0`, nothing selected. -/
def State.init : State := ⟨Rows.nil, [], 0, 0, none, []⟩

/-! ## The store -/

/-- Number of rows of a level. -/
def Rows.length : Rows → Nat
  | Rows.nil => 0
  | Rows.cons _ _ nx => nx.length + 1

/-- The rows of a level, in order, without their children. -/
def Rows.toList : Rows → List Row
  | Rows.nil => []
  | Rows.cons x _ nx => x :: nx.toList

/-- A level with one more row at its end. -/
def Rows.snoc : Rows → Row → Rows
  | Rows.nil, r => Rows.cons r Rows.nil Rows.nil
  | Rows.cons x c nx, r => Rows.cons x c (nx.snoc r)

/-- The row at a path together with its children, when the path leads to a row. -/
def node_at : Rows → GtkTreePath → Option (Row × Rows)
  | Rows.nil, _ => none
  | Rows.cons _ _ _, [] => none
  | Rows.cons x c _, [0] => some (x, c)
  | Rows.cons _ c _, 0 :: j :: p => node_at c (j :: p)
  | Rows.cons _ _ nx, (i + 1) :: p => node_at nx (i :: p)

/-- The store with a row added after the last child of the row at `parent`
(after the last top-level row for the empty path). -/
def append_child : Rows → GtkTreePath → Row → Rows
  | rs, [], r => rs.snoc r
  | Rows.nil, _ :: _, _ => Rows.nil
  | Rows.cons x c nx, 0 :: p, r => Rows.cons x (append_child c p r) nx
  | Rows.cons x c nx, (i + 1) :: p, r => Rows.cons x c (append_child nx (i :: p) r)

/-- The store with a row added before the first child of the row at `parent`
(before the first top-level row for the empty path). -/
def prepend_child : Rows → GtkTreePath → Row → Rows
  | rs, [], r => Rows.cons r Rows.nil rs
  | Rows.nil, _ :: _, _ => Rows.nil
  | Rows.cons x c nx, 0 :: p, r => Rows.cons x (prepend_child c p r) nx
  | Rows.cons x c nx, (i + 1) :: p, r => Rows.cons x c (prepend_child nx (i :: p) r)

/-- The store with the columns of the row at a path rewritten. -/
def set_row : Rows → GtkTreePath → (Row → Row) → Rows
  | Rows.nil, _, _ => Rows.nil
  | Rows.cons x c nx, [], _ => Rows.cons x c nx
  | Rows.cons x c nx, [0], g => Rows.cons (g x) c nx
  | Rows.cons x c nx, 0 :: j :: p, g => Rows.cons x (set_row c (j :: p) g) nx
  | Rows.cons x c nx, (i + 1) :: p, g => Rows.cons x c (set_row nx (i :: p) g)

/-- The store without the row at a path and without the rows below it. -/
def remove_row : Rows → GtkTreePath → Rows
  | Rows.nil, _ => Rows.nil
  | Rows.cons x c nx, [] => Rows.cons x c nx
  | Rows.cons _ _ nx, [0] => nx
  | Rows.cons x c nx, 0 :: j :: p => Rows.cons x (remove_row c (j :: p)) nx
  | Rows.cons x c nx, (i + 1) :: p => Rows.cons x c (remove_row nx (i :: p))

/-- Number of children of the row at a path (of top-level rows for the empty path). -/
def n_children (rs : Rows) (parent : GtkTreePath) : Nat :=
  match parent with
  | [] => rs.length
  | _ :: _ =>
    match node_at rs parent with
    | some (_, c) => c.length
    | none => 0

/-! ## Row references and the selection -/

/-- The path a row reference tracks, after a row was inserted at `q`. -/
def ref_inserted : GtkTreePath → GtkTreePath → GtkTreePath
  | [], r => r
  | _ :: _, [] => []
  | [i], j :: r => if i ≤ j then (j + 1) :: r else j :: r
  | i :: k :: q, j :: r => if i = j then j :: ref_inserted (k :: q) r else j :: r

/-- The path a row reference tracks, after the row at `q` was deleted; `none`
when the reference pointed to that row or below it. -/
def ref_deleted : GtkTreePath → GtkTreePath → Option GtkTreePath
  | [], r => some r
  | _ :: _, [] => some []
  | [i], j :: r => if i = j then none else if i < j then some ((j - 1) :: r) else some (j :: r)
  | i :: k :: q, j :: r =>
    if i = j then (ref_deleted (k :: q) r).map (fun t => j :: t) else some (j :: r)

/-- The "row-inserted" signal: every row reference and the selection follow their row. -/
def row_inserted (q : GtkTreePath) (s : State) : State :=
  { s with
    threads := s.threads.map (fun e => (e.1, e.2.map (ref_inserted q)))
    selection := s.selection.map (ref_inserted q) }

/-- The "row-deleted" signal: references to the row or below it lose their
path, a selected row that is deleted leaves nothing selected, the others follow. -/
def row_deleted (q : GtkTreePath) (s : State) : State :=
  { s with
    threads := s.threads.map (fun e => (e.1, e.2.bind (ref_deleted q)))
    selection := s.selection.bind (ref_deleted q) }

/-! ## The hash table `threads` -/

/-- The value stored for a key, `none` when the key is absent. -/
def g_hash_table_lookup (t : List (Int × Option GtkTreePath)) (key : Int) :
    Option (Option GtkTreePath) :=
  match t with
  | [] => none
  | e :: rest => if e.1 = key then some e.2 else g_hash_table_lookup rest key

/-- The table without a key. -/
def g_hash_table_remove (t : List (Int × Option GtkTreePath)) (key : Int) :
    List (Int × Option GtkTreePath) :=
  t.filter (fun e => e.1 ≠ key)

/-- The table with a key bound to a value; an earlier binding of the key is replaced. -/
def g_hash_table_insert (t : List (Int × Option GtkTreePath)) (key : Int)
    (value : Option GtkTreePath) : List (Int × Option GtkTreePath) :=
  g_hash_table_remove t key ++ [(key, value)]

/-- Path of a row reference: NULL for a NULL reference and for a reference whose row is gone. -/
def gtk_tree_row_reference_get_path (reference : Option (Option GtkTreePath)) :
    Option GtkTreePath :=
  match reference with
  | none => none
  | some r => r

/-! ## GTK calls on iterators -/

/-- Model of `gtk_tree_model_get_iter`: a NULL path leaves the iterator as it
was; a path to a row sets it to that row; any other path sets it invalid. -/
def gtk_tree_model_get_iter (model : Rows) (iter : GtkTreeIter) (path : Option GtkTreePath) :
    GtkTreeIter :=
  match path with
  | none => iter
  | some p => if (node_at model p).isSome then GtkTreeIter.row p else GtkTreeIter.invalid

/-- Model of `gtk_tree_store_set` of the column `S_ACTIVE` at a valid iterator. -/
def set_active (s : State) (p : GtkTreePath) (b : Bool) : State :=
  { s with store := set_row s.store p (fun x => { x with S_ACTIVE := b }) }

/-- Model of `gtk_tree_store_remove` at a valid iterator: the row and the rows
below it leave the store; the result tells whether a row followed it on its
level (the iterator then points to that row, which now has the same path). -/
def gtk_tree_store_remove (s : State) (p : GtkTreePath) : State × Bool :=
  let store := remove_row s.store p
  (row_deleted p { s with store := store }, (node_at store p).isSome)

/-- Model of `gtk_tree_model_iter_children`: the first child of the row at a valid iterator. -/
def gtk_tree_model_iter_children (model : Rows) (parent : GtkTreePath) : Option GtkTreePath :=
  match node_at model parent with
  | some (_, Rows.cons _ _ _) => some (parent ++ [0])
  | _ => none

/-- Model of `gtk_tree_store_append`: a blank row after the last child of
`parent` (the empty path stands for a NULL parent, the top level). -/
def gtk_tree_store_append (s : State) (parent : GtkTreePath) : State × GtkTreePath :=
  let p := parent ++ [n_children s.store parent]
  (row_inserted p { s with store := append_child s.store parent Row.blank }, p)

/-- Model of `gtk_tree_store_prepend (store, iter, parent)` with a parent: GTK
prepends the new row before the first child of `parent`; the row is blank. -/
def gtk_tree_store_prepend (s : State) (parent : GtkTreePath) : State × GtkTreePath :=
  let p := parent ++ [0]
  (row_inserted p { s with store := prepend_child s.store parent Row.blank }, p)

/-- Model of `gtk_tree_store_insert_before (store, iter, parent, sibling)` with
a NULL sibling, the way `stree_add` calls it (its fourth argument, the literal
0, is the sibling pointer): with no sibling to insert before, GTK appends the
new row to the children of `parent`. -/
def gtk_tree_store_insert_before (s : State) (parent : GtkTreePath) : State × GtkTreePath :=
  gtk_tree_store_append s parent

/-- Model of `gtk_tree_store_clear`: no row is left, every reference loses its path. -/
def gtk_tree_store_clear (s : State) : State :=
  { s with
    store := Rows.nil
    threads := s.threads.map (fun e => (e.1, none))
    selection := none }

/-! ## The functions of `stree.c` -/

/-- Tree view selection changed callback.  Nothing selected: return.  A selected
path of depth 2: the frame `f` of that row is read and `move_to_line (f->file,
f->line)` is called when `f->have_source`; on a depth-2 row without a frame `f`
is NULL, and on a path to no row `f` is never written, so `f->have_source` has
no defined behaviour.  Any other depth: nothing. -/
def on_selection_changed (s : State) : Outcome State :=
  match s.selection with
  | none => Outcome.done s
  | some path =>
    if path.length = 2 then
      match node_at s.store path with
      | some (x, _) =>
        match x.S_FRAME with
        | some f =>
          if f.have_source then
            Outcome.done { s with calls := s.calls ++ [Call.move_to_line f.file f.line] }
          else Outcome.done s
        | none => Outcome.undefined
      | none => Outcome.undefined
    else Outcome.done s

/-- Model of `gtk_tree_selection_select_path` in the single selection mode of
the view: a row that is not yet the selected one becomes it, and the "changed"
signal runs `on_selection_changed`. -/
def gtk_tree_selection_select_path (s : State) (path : GtkTreePath) : Outcome State :=
  if s.selection = some path then Outcome.done s
  else on_selection_changed { s with selection := some path }

/-- Frame arrow clicked callback; `path` is the path of the clicked row, and
`indices[1]` is read from it (no defined behaviour for a path of depth 1).
When `indices[1]` differs from `active_frame_index`: the path of the active
thread's reference, extended by `active_frame_index`, is looked up and the flag
of that row cleared (an unwritten iterator when the reference is NULL or has no
path; a checked no-op when the extended path leads to no row); then
`active_frame_index` is set, `select_frame` called, and the flag of the clicked
row set. -/
def on_frame_arrow_clicked (s : State) (path : GtkTreePath) : Outcome State :=
  match path with
  | _ :: index :: _ =>
    if (index : Int) ≠ s.active_frame_index then
      let reference := g_hash_table_lookup s.threads s.active_thread_id
      let iter :=
        match gtk_tree_row_reference_get_path reference with
        | none => GtkTreeIter.unset
        | some old_active_frame =>
          if 0 ≤ s.active_frame_index then
            gtk_tree_model_get_iter s.store GtkTreeIter.unset
              (some (old_active_frame ++ [s.active_frame_index.toNat]))
          else GtkTreeIter.invalid
      let cleared : Outcome State :=
        match iter with
        | GtkTreeIter.unset => Outcome.undefined
        | GtkTreeIter.invalid => Outcome.done s
        | GtkTreeIter.row p => Outcome.done (set_active s p false)
      match cleared with
      | Outcome.done s1 =>
        let s2 := { s1 with
          active_frame_index := index
          calls := s1.calls ++ [Call.select_frame index] }
        match gtk_tree_model_get_iter s2.store iter (some path) with
        | GtkTreeIter.row q => Outcome.done (set_active s2 q true)
        | _ => Outcome.done s2
      | o => o
    else Outcome.done s
  | _ => Outcome.undefined

/-- Add frame to the tree view.  The new row goes after the last child of the
row of the active thread (`gtk_tree_store_insert_before` with a NULL sibling).  When the reference is NULL or has lost its path,
`thread_iter` is never written and is handed to the store as parent; when its
path leads to no row, the insertion is a checked no-op that leaves `frame_iter`
unwritten for `gtk_tree_store_set`: no defined behaviour either way. -/
def stree_add (s : State) (f : frame) : Outcome State :=
  let reference := g_hash_table_lookup s.threads s.active_thread_id
  let path := gtk_tree_row_reference_get_path reference
  match gtk_tree_model_get_iter s.store GtkTreeIter.unset path with
  | GtkTreeIter.row thread_iter =>
    let inserted := gtk_tree_store_insert_before s thread_iter
    Outcome.done { inserted.1 with
      store := set_row inserted.1.store inserted.2 (fun x => { x with S_FRAME := some f }) }
  | _ => Outcome.undefined

/-- Clear tree view completely: `gtk_tree_store_clear`, then `g_hash_table_remove_all`. -/
def stree_clear (s : State) : State :=
  let s1 := gtk_tree_store_clear s
  { s1 with threads := [] }

/-- Select first frame in the stack.  (`gtk_tree_view_expand_all` changes
nothing that is modelled.)  With a first child under the row of the active
thread: its flag is set and `active_frame_index` zeroed when `make_active`, and
the child is selected. -/
def stree_select_first_frame (s : State) (make_active : Bool) : Outcome State :=
  let reference := g_hash_table_lookup s.threads s.active_thread_id
  let active_path := gtk_tree_row_reference_get_path reference
  match gtk_tree_model_get_iter s.store GtkTreeIter.unset active_path with
  | GtkTreeIter.unset => Outcome.undefined
  | GtkTreeIter.invalid => Outcome.done s
  | GtkTreeIter.row thread_iter =>
    match gtk_tree_model_iter_children s.store thread_iter with
    | some frame_iter =>
      let s1 :=
        if make_active then { set_active s frame_iter true with active_frame_index := 0 }
        else s
      gtk_tree_selection_select_path s1 frame_iter
    | none => Outcome.done s

/-- The do/while scan of `stree_add_thread`: index of the first top-level row
whose thread id is greater than `thread_id`, counting from `i`. -/
def find_consecutive : Rows → Int → Nat → Option Nat
  | Rows.nil, _, _ => none
  | Rows.cons x _ nx, thread_id, i =>
    if x.S_THREAD_ID > thread_id then some i else find_consecutive nx thread_id (i + 1)

/-- Add new thread to the tree view.  With a top-level row of greater thread id
found, the new row is made by `gtk_tree_store_prepend (store, &new_thread_iter,
consecutive)`, that is, as the first child of that row; otherwise by
`gtk_tree_store_append` at the top level.  Its columns are set and a reference
to it is put in the table. -/
def stree_add_thread (s : State) (thread_id : Int) : State :=
  let inserted : State × GtkTreePath :=
    match s.store with
    | Rows.cons _ _ _ =>
      match find_consecutive s.store thread_id 0 with
      | some consecutive => gtk_tree_store_prepend s [consecutive]
      | none => gtk_tree_store_append s []
    | Rows.nil => gtk_tree_store_append s []
  let s1 := inserted.1
  let new_thread_iter := inserted.2
  let s2 := { s1 with
    store := set_row s1.store new_thread_iter
      (fun x => { x with S_FRAME := none, S_THREAD_ID := thread_id }) }
  { s2 with threads := g_hash_table_insert s2.threads thread_id (some new_thread_iter) }

/-- Remove a thread from the tree view: the row of its reference is removed
with the rows below it, then its table entry.  With a NULL reference or one
without path the iterator handed to `gtk_tree_store_remove` is unwritten. -/
def stree_remove_thread (s : State) (thread_id : Int) : Outcome State :=
  let reference := g_hash_table_lookup s.threads thread_id
  let tpath := gtk_tree_row_reference_get_path reference
  match gtk_tree_model_get_iter s.store GtkTreeIter.unset tpath with
  | GtkTreeIter.unset => Outcome.undefined
  | GtkTreeIter.invalid =>
    Outcome.done { s with threads := g_hash_table_remove s.threads thread_id }
  | GtkTreeIter.row iter =>
    let s1 := (gtk_tree_store_remove s iter).1
    Outcome.done { s1 with threads := g_hash_table_remove s1.threads thread_id }

/-- The loop `while (gtk_tree_store_remove (store, &child));` of
`stree_remove_frames`, run for at most `fuel` rounds. -/
def remove_while : Nat → State → GtkTreePath → Outcome State
  | 0, _, _ => Outcome.out_of_fuel
  | fuel + 1, s, child =>
    let r := gtk_tree_store_remove s child
    if r.2 then remove_while fuel r.1 child else Outcome.done r.1

/-- Remove all frames: the children of the row of the active thread, one
`gtk_tree_store_remove` after the other.  The loop is given one round per child
of the thread row; `stree_remove_frames_fuel` shows that this is always enough. -/
def stree_remove_frames (s : State) : Outcome State :=
  let reference := g_hash_table_lookup s.threads s.active_thread_id
  let tpath := gtk_tree_row_reference_get_path reference
  match gtk_tree_model_get_iter s.store GtkTreeIter.unset tpath with
  | GtkTreeIter.unset => Outcome.undefined
  | GtkTreeIter.invalid => Outcome.done s
  | GtkTreeIter.row thread_iter =>
    match gtk_tree_model_iter_children s.store thread_iter with
    | some child => remove_while (n_children s.store thread_iter) s child
    | none => Outcome.done s

/-- Set current thread id. -/
def stree_set_active_thread_id (s : State) (thread_id : Int) : State :=
  { s with active_thread_id := thread_id }

/-! ## Sequences of calls -/

/-- The mutators: the exposed functions and the arrow click. -/
inductive Op where
  | add_thread (thread_id : Int) : Op
  | remove_thread (thread_id : Int) : Op
  | add (f : frame) : Op
  | remove_frames : Op
  | clear : Op
  | set_active_thread_id (thread_id : Int) : Op
  | select_first_frame (make_active : Bool) : Op
  | frame_arrow_clicked (path : GtkTreePath) : Op
deriving DecidableEq, Repr

/-- One call. -/
def Op.apply (s : State) : Op → Outcome State
  | Op.add_thread t => Outcome.done (stree_add_thread s t)
  | Op.remove_thread t => stree_remove_thread s t
  | Op.add f => stree_add s f
  | Op.remove_frames => stree_remove_frames s
  | Op.clear => Outcome.done (stree_clear s)
  | Op.set_active_thread_id t => Outcome.done (stree_set_active_thread_id s t)
  | Op.select_first_frame b => stree_select_first_frame s b
  | Op.frame_arrow_clicked p => on_frame_arrow_clicked s p

/-- A sequence of calls, one after the other; it stops where a call has no defined outcome. -/
def run : State → List Op → Outcome State
  | s, [] => Outcome.done s
  | s, op :: ops =>
    match op.apply s with
    | Outcome.done s1 => run s1 ops
    | o => o

/-! ## Observations -/

/-- The thread ids of the top-level rows, in order. -/
def root_thread_ids (s : State) : List Int :=
  s.store.toList.map (fun x => x.S_THREAD_ID)

/-- The thread ids in the table. -/
def registered_ids (s : State) : List Int :=
  s.threads.map (fun e => e.1)

/-- The `S_FRAME` column of the children of the row at a path, in order. -/
def frames_at (s : State) (p : GtkTreePath) : Option (List (Option frame)) :=
  match node_at s.store p with
  | some (_, c) => some (c.toList.map (fun x => x.S_FRAME))
  | none => none

/-- Number of rows of the store, at all depths, whose active flag is set. -/
def Rows.n_flagged : Rows → Nat
  | Rows.nil => 0
  | Rows.cons x c nx => (if x.S_ACTIVE then 1 else 0) + c.n_flagged + nx.n_flagged

/-! ## States and frames used in the examples -/

/-- A frame with a source file. -/
def F0 : frame := ⟨"0x4005d0", "main", some "/src/main.c", 12, true⟩

/-- A frame without a source file. -/
def F1 : frame := ⟨"0x7f001a", "poll", none, 0, false⟩

/-- The state after `stree_add_thread (1)` and `stree_set_active_thread_id (1)`:
thread 1 registered and active, no frame under it. -/
def S_thread : State :=
  ⟨Rows.cons ⟨none, 1, false⟩ Rows.nil Rows.nil, [(1, some [0])], 1, 0, none, []⟩

/-- The state after `stree_add (F0)` and `stree_add (F1)` in `S_thread`: thread 1
with the frame rows `F0`, `F1`, no row flagged, nothing selected. -/
def S_frames : State :=
  ⟨Rows.cons ⟨none, 1, false⟩
      (Rows.cons ⟨some F0, 0, false⟩ Rows.nil (Rows.cons ⟨some F1, 0, false⟩ Rows.nil Rows.nil))
      Rows.nil,
    [(1, some [0])], 1, 0, none, []⟩

/-- The state `S_frames` with the flag of frame row 0 set, as
`stree_select_first_frame (TRUE)` leaves it apart from the selection. -/
def S_flagged : State :=
  ⟨Rows.cons ⟨none, 1, false⟩
      (Rows.cons ⟨some F0, 0, true⟩ Rows.nil (Rows.cons ⟨some F1, 0, false⟩ Rows.nil Rows.nil))
      Rows.nil,
    [(1, some [0])], 1, 0, none, []⟩

/-! ## The store: lemmas -/

theorem Rows.length_snoc (c : Rows) (r : Row) : (c.snoc r).length = c.length + 1 := by
  induction c with
  | nil => rfl
  | cons x c nx _ ih => simp [Rows.snoc, Rows.length, ih]

theorem node_at_empty (rs : Rows) : node_at rs [] = none := by
  cases rs <;> rfl

theorem node_at_append (rs : Rows) (p q : GtkTreePath) (x : Row) (c : Rows)
    (h : node_at rs p = some (x, c)) (hq : q ≠ []) : node_at rs (p ++ q) = node_at c q := by
  induction rs generalizing p with
  | nil => simp [node_at] at h
  | cons y cc nx ihc ihn =>
    match p, h with
    | [], h => simp [node_at] at h
    | [0], h =>
      simp only [node_at, Option.some.injEq, Prod.mk.injEq] at h
      obtain ⟨rfl, rfl⟩ := h
      cases q with
      | nil => exact absurd rfl hq
      | cons j q => simp [node_at]
    | 0 :: j :: p, h =>
      simp only [node_at] at h
      simpa [node_at] using ihc (j :: p) h
    | (i + 1) :: p, h =>
      simp only [node_at] at h
      simpa [node_at] using ihn (i :: p) h

theorem node_at_set_row_child (rs : Rows) (p : GtkTreePath) (x : Row) (c : Rows) (i : Nat)
    (g : Row → Row) (h : node_at rs p = some (x, c)) :
    node_at (set_row rs (p ++ [i]) g) p = some (x, set_row c [i] g) := by
  induction rs generalizing p with
  | nil => simp [node_at] at h
  | cons y cc nx ihc ihn =>
    match p, h with
    | [], h => simp [node_at] at h
    | [0], h =>
      simp only [node_at, Option.some.injEq, Prod.mk.injEq] at h
      obtain ⟨rfl, rfl⟩ := h
      simp [set_row, node_at]
    | 0 :: j :: p, h =>
      simp only [node_at] at h
      simpa [set_row, node_at] using ihc (j :: p) h
    | (i + 1) :: p, h =>
      simp only [node_at] at h
      simpa [set_row, node_at] using ihn (i :: p) h

theorem node_at_remove_first_child (rs : Rows) (p : GtkTreePath) (x y : Row) (cc nx : Rows)
    (h : node_at rs p = some (x, Rows.cons y cc nx)) :
    node_at (remove_row rs (p ++ [0])) p = some (x, nx) := by
  induction rs generalizing p with
  | nil => simp [node_at] at h
  | cons z c n ihc ihn =>
    match p, h with
    | [], h => simp [node_at] at h
    | [0], h =>
      simp only [node_at, Option.some.injEq, Prod.mk.injEq] at h
      obtain ⟨rfl, rfl⟩ := h
      simp [remove_row, node_at]
    | 0 :: j :: p, h =>
      simp only [node_at] at h
      simpa [remove_row, node_at] using ihc (j :: p) h
    | (i + 1) :: p, h =>
      simp only [node_at] at h
      simpa [remove_row, node_at] using ihn (i :: p) h

theorem node_at_set_row_same (rs : Rows) (p : GtkTreePath) (x : Row) (c : Rows)
    (g : Row → Row) (h : node_at rs p = some (x, c)) :
    node_at (set_row rs p g) p = some (g x, c) := by
  induction rs generalizing p with
  | nil => simp [node_at] at h
  | cons y cc nx ihc ihn =>
    match p, h with
    | [], h => simp [node_at] at h
    | [0], h =>
      simp only [node_at, Option.some.injEq, Prod.mk.injEq] at h
      obtain ⟨rfl, rfl⟩ := h
      simp [set_row, node_at]
    | 0 :: j :: p, h =>
      simp only [node_at] at h
      simpa [set_row, node_at] using ihc (j :: p) h
    | (i + 1) :: p, h =>
      simp only [node_at] at h
      simpa [set_row, node_at] using ihn (i :: p) h

theorem node_at_set_row_isSome (rs : Rows) (q p : GtkTreePath) (g : Row → Row) :
    (node_at (set_row rs q g) p).isSome = (node_at rs p).isSome := by
  induction rs generalizing q p with
  | nil => simp [set_row, node_at]
  | cons y cc nx ihc ihn =>
    match q with
    | [] => simp [set_row]
    | [0] =>
      match p with
      | [] => simp [set_row, node_at]
      | [0] => simp [set_row, node_at]
      | 0 :: j :: p => simp [set_row, node_at]
      | (i + 1) :: p => simp [set_row, node_at]
    | 0 :: k :: q =>
      match p with
      | [] => simp [set_row, node_at]
      | [0] => simp [set_row, node_at]
      | 0 :: j :: p => simpa [set_row, node_at] using ihc (k :: q) (j :: p)
      | (i + 1) :: p => simp [set_row, node_at]
    | (l + 1) :: q =>
      match p with
      | [] => simp [set_row, node_at]
      | [0] => simp [set_row, node_at]
      | 0 :: j :: p => simp [set_row, node_at]
      | (i + 1) :: p => simpa [set_row, node_at] using ihn (l :: q) (i :: p)

theorem ref_deleted_append (p : GtkTreePath) (i : Nat) : ref_deleted (p ++ [i]) p = some p := by
  induction p with
  | nil => rfl
  | cons j p ih =>
    cases p with
    | nil => simp [ref_deleted]
    | cons k p => simpa [ref_deleted] using ih

theorem g_hash_table_lookup_map (t : List (Int × Option GtkTreePath)) (key : Int)
    (g : Option GtkTreePath → Option GtkTreePath) :
    g_hash_table_lookup (t.map (fun e => (e.1, g e.2))) key
      = (g_hash_table_lookup t key).map g := by
  induction t with
  | nil => rfl
  | cons e t ih =>
    by_cases h : e.1 = key <;> simp [g_hash_table_lookup, h, ih]

theorem n_children_eq (rs : Rows) (p : GtkTreePath) (x : Row) (c : Rows)
    (h : node_at rs p = some (x, c)) : n_children rs p = c.length := by
  cases p with
  | nil => simp [node_at_empty] at h
  | cons i p => simp [n_children, h]

theorem get_path_row_deleted (s : State) (key : Int) (p : GtkTreePath) (i : Nat)
    (hreg : gtk_tree_row_reference_get_path (g_hash_table_lookup s.threads key) = some p) :
    gtk_tree_row_reference_get_path
      (g_hash_table_lookup (row_deleted (p ++ [i]) s).threads key) = some p := by
  simp only [row_deleted]
  rw [g_hash_table_lookup_map s.threads key (fun r => r.bind (ref_deleted (p ++ [i])))]
  cases hl : g_hash_table_lookup s.threads key with
  | none => simp [hl, gtk_tree_row_reference_get_path] at hreg
  | some r =>
    simp only [hl, gtk_tree_row_reference_get_path] at hreg
    subst hreg
    simp [gtk_tree_row_reference_get_path, ref_deleted_append]

theorem remove_while_children (c : Rows) (s : State) (fuel : Nat) (p : GtkTreePath) (x : Row)
    (hrow : node_at s.store p = some (x, c)) (hc : c ≠ Rows.nil) (hfuel : c.length ≤ fuel) :
    ∃ s', remove_while fuel s (p ++ [0]) = Outcome.done s'
      ∧ node_at s'.store p = some (x, Rows.nil)
      ∧ (∀ key, gtk_tree_row_reference_get_path (g_hash_table_lookup s.threads key) = some p →
          gtk_tree_row_reference_get_path (g_hash_table_lookup s'.threads key) = some p)
      ∧ s'.active_thread_id = s.active_thread_id
      ∧ s'.active_frame_index = s.active_frame_index
      ∧ s'.calls = s.calls := by
  induction c generalizing s fuel with
  | nil => exact absurd rfl hc
  | cons y cc nx _ ih =>
    cases fuel with
    | zero => simp [Rows.length] at hfuel
    | succ n =>
      have hrow1 : node_at (remove_row s.store (p ++ [0])) p = some (x, nx) :=
        node_at_remove_first_child _ _ _ _ _ _ hrow
      have hreg1 : ∀ key,
          gtk_tree_row_reference_get_path (g_hash_table_lookup s.threads key) = some p →
          gtk_tree_row_reference_get_path
            (g_hash_table_lookup (gtk_tree_store_remove s (p ++ [0])).1.threads key) = some p :=
        fun key hreg =>
          get_path_row_deleted { s with store := remove_row s.store (p ++ [0]) } key p 0 hreg
      have hmore : (gtk_tree_store_remove s (p ++ [0])).2 = (node_at nx [0]).isSome := by
        simp only [gtk_tree_store_remove]
        rw [node_at_append _ p [0] x nx hrow1 (by simp)]
      cases hnx : nx with
      | nil =>
        refine ⟨(gtk_tree_store_remove s (p ++ [0])).1, ?_, ?_, hreg1, rfl, rfl, rfl⟩
        · simp [remove_while, hmore, hnx, node_at]
        · simpa [hnx] using hrow1
      | cons z zc zn =>
        have hlen : nx.length ≤ n := by
          simp only [Rows.length] at hfuel
          omega
        obtain ⟨s', h1, h2, h3, h4, h5, h6⟩ :=
          ih (gtk_tree_store_remove s (p ++ [0])).1 n hrow1 (by simp [hnx]) hlen
        refine ⟨s', ?_, h2, fun key hreg => h3 key (hreg1 key hreg), h4, h5, h6⟩
        simp only [remove_while, hmore, hnx, node_at, Option.isSome_some, if_true]
        exact h1

theorem stree_remove_frames_fuel (s : State) :
    stree_remove_frames s ≠ Outcome.out_of_fuel := by
  simp only [stree_remove_frames]
  split
  · simp
  · simp
  · rename_i thread_iter hit
    cases hrow : node_at s.store thread_iter with
    | none => simp [gtk_tree_model_iter_children, hrow]
    | some xc =>
      obtain ⟨x, c⟩ := xc
      cases hc : c with
      | nil => simp [gtk_tree_model_iter_children, hrow, hc]
      | cons y cc nx =>
        obtain ⟨s', h1, -⟩ :=
          remove_while_children c s c.length thread_iter x hrow (by simp [hc]) (le_refl _)
        simp only [gtk_tree_model_iter_children, hrow, hc, n_children_eq _ _ _ _ hrow]
        rw [hc] at h1
        simp [h1]

theorem on_selection_changed_frame (s : State) (q : GtkTreePath)
    (hsel : s.selection = some q)
    (hq : q.length = 2 → ∃ x c f, node_at s.store q = some (x, c) ∧ x.S_FRAME = some f) :
    ∃ calls, on_selection_changed s = Outcome.done { s with calls := calls } := by
  obtain ⟨store, threads, atid, afi, sel, calls0⟩ := s
  simp only at hsel hq
  subst hsel
  by_cases h2 : q.length = 2
  · obtain ⟨x, c, f, hx, hf⟩ := hq h2
    by_cases hs : f.have_source = true
    · exact ⟨calls0 ++ [Call.move_to_line f.file f.line],
        by simp [on_selection_changed, h2, hx, hf, hs]⟩
    · exact ⟨calls0, by simp [on_selection_changed, h2, hx, hf, hs]⟩
  · exact ⟨calls0, by simp [on_selection_changed, h2]⟩

theorem gtk_tree_selection_select_path_frame (s : State) (q : GtkTreePath)
    (hq : q.length = 2 → ∃ x c f, node_at s.store q = some (x, c) ∧ x.S_FRAME = some f) :
    ∃ calls, gtk_tree_selection_select_path s q
      = Outcome.done { s with selection := some q, calls := calls } := by
  by_cases hsel : s.selection = some q
  · refine ⟨s.calls, ?_⟩
    simp only [gtk_tree_selection_select_path, hsel, if_true]
    rw [← hsel]
  · obtain ⟨calls, h⟩ := on_selection_changed_frame { s with selection := some q } q rfl hq
    exact ⟨calls, by simp only [gtk_tree_selection_select_path, hsel, if_false, h]⟩

theorem n_flagged_snoc (c : Rows) (r : Row) (hr : r.S_ACTIVE = false) :
    (c.snoc r).n_flagged = c.n_flagged := by
  induction c with
  | nil => simp [Rows.snoc, Rows.n_flagged, hr]
  | cons x cc nx _ ih => simp [Rows.snoc, Rows.n_flagged, ih]

theorem n_flagged_append_child (rs : Rows) (p : GtkTreePath) (r : Row)
    (hr : r.S_ACTIVE = false) : (append_child rs p r).n_flagged = rs.n_flagged := by
  induction rs generalizing p with
  | nil =>
    cases p with
    | nil => simp [append_child, Rows.snoc, Rows.n_flagged, hr]
    | cons i p => simp [append_child]
  | cons y cc nx ihc ihn =>
    match p with
    | [] => simpa [append_child] using n_flagged_snoc _ r hr
    | 0 :: p => simp [append_child, Rows.n_flagged, ihc p]
    | (i + 1) :: p => simp [append_child, Rows.n_flagged, ihn (i :: p)]

theorem n_flagged_prepend_child (rs : Rows) (p : GtkTreePath) (r : Row)
    (hr : r.S_ACTIVE = false) : (prepend_child rs p r).n_flagged = rs.n_flagged := by
  induction rs generalizing p with
  | nil =>
    cases p with
    | nil => simp [prepend_child, Rows.n_flagged, hr]
    | cons i p => simp [prepend_child]
  | cons y cc nx ihc ihn =>
    match p with
    | [] => simp [prepend_child, Rows.n_flagged, hr]
    | 0 :: p => simp [prepend_child, Rows.n_flagged, ihc p]
    | (i + 1) :: p => simp [prepend_child, Rows.n_flagged, ihn (i :: p)]

theorem n_flagged_set_row_keep (rs : Rows) (q : GtkTreePath) (g : Row → Row)
    (hg : ∀ x, (g x).S_ACTIVE = x.S_ACTIVE) : (set_row rs q g).n_flagged = rs.n_flagged := by
  induction rs generalizing q with
  | nil => simp [set_row]
  | cons y cc nx ihc ihn =>
    match q with
    | [] => simp [set_row]
    | [0] => simp [set_row, Rows.n_flagged, hg]
    | 0 :: j :: q => simp [set_row, Rows.n_flagged, ihc (j :: q)]
    | (i + 1) :: q => simp [set_row, Rows.n_flagged, ihn (i :: q)]

theorem n_flagged_set_row (rs : Rows) (q : GtkTreePath) (g : Row → Row) (x : Row) (c : Rows)
    (h : node_at rs q = some (x, c)) :
    (set_row rs q g).n_flagged + (if x.S_ACTIVE then 1 else 0)
      = rs.n_flagged + (if (g x).S_ACTIVE then 1 else 0) := by
  induction rs generalizing q with
  | nil => simp [node_at] at h
  | cons y cc nx ihc ihn =>
    match q, h with
    | [], h => simp [node_at] at h
    | [0], h =>
      simp only [node_at, Option.some.injEq, Prod.mk.injEq] at h
      obtain ⟨rfl, rfl⟩ := h
      simp only [set_row, Rows.n_flagged]
      omega
    | 0 :: j :: q, h =>
      simp only [node_at] at h
      have := ihc (j :: q) h
      simp only [set_row, Rows.n_flagged]
      omega
    | (i + 1) :: q, h =>
      simp only [node_at] at h
      have := ihn (i :: q) h
      simp only [set_row, Rows.n_flagged]
      omega

theorem n_flagged_remove_row (rs : Rows) (q : GtkTreePath) :
    (remove_row rs q).n_flagged ≤ rs.n_flagged := by
  induction rs generalizing q with
  | nil => simp [remove_row]
  | cons y cc nx ihc ihn =>
    match q with
    | [] => simp [remove_row]
    | [0] => simp only [remove_row, Rows.n_flagged]; omega
    | 0 :: j :: q =>
      have := ihc (j :: q)
      simp only [remove_row, Rows.n_flagged]; omega
    | (i + 1) :: q =>
      have := ihn (i :: q)
      simp only [remove_row, Rows.n_flagged]; omega

theorem n_flagged_pos (rs : Rows) (q : GtkTreePath) (x : Row) (c : Rows)
    (h : node_at rs q = some (x, c)) (hx : x.S_ACTIVE = true) : 0 < rs.n_flagged := by
  induction rs generalizing q with
  | nil => simp [node_at] at h
  | cons y cc nx ihc ihn =>
    match q, h with
    | [], h => simp [node_at] at h
    | [0], h =>
      simp only [node_at, Option.some.injEq, Prod.mk.injEq] at h
      obtain ⟨rfl, rfl⟩ := h
      simp only [Rows.n_flagged, hx]; simp
    | 0 :: j :: q, h =>
      simp only [node_at] at h
      have := ihc (j :: q) h
      simp only [Rows.n_flagged]; omega
    | (i + 1) :: q, h =>
      simp only [node_at] at h
      have := ihn (i :: q) h
      simp only [Rows.n_flagged]; omega

theorem on_selection_changed_done (s s' : State) (h : on_selection_changed s = Outcome.done s') :
    s'.store = s.store ∧ s'.threads = s.threads ∧ s'.active_thread_id = s.active_thread_id
      ∧ s'.active_frame_index = s.active_frame_index ∧ s'.selection = s.selection := by
  unfold on_selection_changed at h
  split at h
  · cases h; simp
  · split at h
    · split at h
      · split at h
        · split at h
          · cases h; simp
          · cases h; simp
        · cases h
      · cases h
    · cases h; simp

theorem gtk_tree_selection_select_path_done (s s' : State) (q : GtkTreePath)
    (h : gtk_tree_selection_select_path s q = Outcome.done s') :
    s'.store = s.store ∧ s'.threads = s.threads ∧ s'.active_thread_id = s.active_thread_id
      ∧ s'.active_frame_index = s.active_frame_index := by
  unfold gtk_tree_selection_select_path at h
  split at h
  · cases h; simp
  · obtain ⟨h1, h2, h3, h4, -⟩ := on_selection_changed_done _ _ h
    exact ⟨h1, h2, h3, h4⟩

theorem stree_add_thread_keeps (s : State) (t : Int) :
    (stree_add_thread s t).store.n_flagged = s.store.n_flagged
      ∧ (stree_add_thread s t).active_frame_index = s.active_frame_index
      ∧ (stree_add_thread s t).active_thread_id = s.active_thread_id := by
  have hg : ∀ x : Row, ({ x with S_FRAME := none, S_THREAD_ID := t } : Row).S_ACTIVE
      = x.S_ACTIVE := fun _ => rfl
  unfold stree_add_thread
  cases hs : s.store with
  | nil =>
    simp [gtk_tree_store_append, row_inserted, n_flagged_set_row_keep _ _ _ hg,
      n_flagged_append_child, Row.blank, hs]
  | cons y cc nx =>
    cases find_consecutive (Rows.cons y cc nx) t 0 with
    | none =>
      simp [gtk_tree_store_append, row_inserted, n_flagged_set_row_keep _ _ _ hg,
        n_flagged_append_child, Row.blank, hs]
    | some i =>
      simp [gtk_tree_store_prepend, row_inserted, n_flagged_set_row_keep _ _ _ hg,
        n_flagged_prepend_child, Row.blank, hs]

theorem stree_remove_thread_keeps (s s' : State) (t : Int)
    (h : stree_remove_thread s t = Outcome.done s') :
    s'.store.n_flagged ≤ s.store.n_flagged
      ∧ s'.active_frame_index = s.active_frame_index
      ∧ s'.active_thread_id = s.active_thread_id := by
  simp only [stree_remove_thread] at h
  split at h
  · cases h
  · cases h; simp
  · cases h
    simp [gtk_tree_store_remove, row_deleted, n_flagged_remove_row]

theorem stree_add_keeps (s s' : State) (f : frame) (h : stree_add s f = Outcome.done s') :
    s'.store.n_flagged = s.store.n_flagged
      ∧ s'.active_frame_index = s.active_frame_index
      ∧ s'.active_thread_id = s.active_thread_id := by
  have hg : ∀ x : Row, ({ x with S_FRAME := some f } : Row).S_ACTIVE = x.S_ACTIVE :=
    fun _ => rfl
  simp only [stree_add] at h
  split at h
  · cases h
    simp [gtk_tree_store_insert_before, gtk_tree_store_append, row_inserted,
      n_flagged_set_row_keep _ _ _ hg, n_flagged_append_child, Row.blank]
  · cases h

theorem remove_while_keeps (fuel : Nat) (s s' : State) (child : GtkTreePath)
    (h : remove_while fuel s child = Outcome.done s') :
    s'.store.n_flagged ≤ s.store.n_flagged
      ∧ s'.active_frame_index = s.active_frame_index
      ∧ s'.active_thread_id = s.active_thread_id := by
  induction fuel generalizing s with
  | zero => simp [remove_while] at h
  | succ n ih =>
    have hstep : (gtk_tree_store_remove s child).1.store.n_flagged ≤ s.store.n_flagged
        ∧ (gtk_tree_store_remove s child).1.active_frame_index = s.active_frame_index
        ∧ (gtk_tree_store_remove s child).1.active_thread_id = s.active_thread_id := by
      simp [gtk_tree_store_remove, row_deleted, n_flagged_remove_row]
    simp only [remove_while] at h
    split at h
    · obtain ⟨h1, h2, h3⟩ := ih _ h
      exact ⟨le_trans h1 hstep.1, h2.trans hstep.2.1, h3.trans hstep.2.2⟩
    · cases h
      exact hstep

theorem stree_remove_frames_keeps (s s' : State) (h : stree_remove_frames s = Outcome.done s') :
    s'.store.n_flagged ≤ s.store.n_flagged
      ∧ s'.active_frame_index = s.active_frame_index
      ∧ s'.active_thread_id = s.active_thread_id := by
  simp only [stree_remove_frames] at h
  split at h
  · cases h
  · cases h; simp
  · split at h
    · exact remove_while_keeps _ _ _ _ h
    · cases h; simp

theorem stree_select_first_frame_keeps (s s' : State) (b : Bool)
    (h : stree_select_first_frame s b = Outcome.done s') :
    (b = false → s'.store.n_flagged = s.store.n_flagged)
      ∧ (s'.active_frame_index = s.active_frame_index ∨ s'.active_frame_index = 0)
      ∧ s'.active_thread_id = s.active_thread_id := by
  simp only [stree_select_first_frame] at h
  split at h
  · cases h
  · cases h; simp
  · split at h
    · obtain ⟨h1, -, h3, h4⟩ := gtk_tree_selection_select_path_done _ _ _ h
      cases b with
      | false => simp at h1 h3 h4; simp [h1, h3, h4]
      | true => simp [set_active] at h1 h3 h4; simp [h3, h4]
    · cases h; simp

theorem on_frame_arrow_clicked_keeps (s s' : State) (q : GtkTreePath)
    (h : on_frame_arrow_clicked s q = Outcome.done s') :
    (s'.active_frame_index = s.active_frame_index
        ∨ ∃ index : Nat, s'.active_frame_index = index)
      ∧ s'.active_thread_id = s.active_thread_id := by
  simp only [on_frame_arrow_clicked] at h
  split at h
  · rename_i index _
    split at h
    · split at h
      · rename_i s1 hs1
        have hs1' : s1.active_thread_id = s.active_thread_id := by
          split at hs1
          · cases hs1
          · cases hs1; rfl
          · cases hs1; rfl
        split at h
        · cases h; exact ⟨Or.inr ⟨index, rfl⟩, hs1'⟩
        · cases h; exact ⟨Or.inr ⟨index, rfl⟩, hs1'⟩
      · rename_i o ho
        exact (ho s' h).elim
    · cases h; exact ⟨Or.inl rfl, rfl⟩
  · cases h

theorem set_row_none (rs : Rows) (q : GtkTreePath) (g : Row → Row)
    (h : node_at rs q = none) : set_row rs q g = rs := by
  induction rs generalizing q with
  | nil => simp [set_row]
  | cons y cc nx ihc ihn =>
    match q, h with
    | [], _ => simp [set_row]
    | [0], h => simp [node_at] at h
    | 0 :: j :: q, h =>
      simp only [node_at] at h
      simp [set_row, ihc (j :: q) h]
    | (i + 1) :: q, h =>
      simp only [node_at] at h
      simp [set_row, ihn (i :: q) h]

theorem Rows.length_set_row (c : Rows) (q : GtkTreePath) (g : Row → Row) :
    (set_row c q g).length = c.length := by
  induction c generalizing q with
  | nil => simp [set_row]
  | cons y cc nx _ ihn =>
    match q with
    | [] => simp [set_row]
    | [0] => simp [set_row, Rows.length]
    | 0 :: j :: q => simp [set_row, Rows.length]
    | (i + 1) :: q => simp [set_row, Rows.length, ihn (i :: q)]

theorem node_at_child_isSome (c : Rows) (i : Nat) (h : i < c.length) :
    (node_at c [i]).isSome := by
  induction c generalizing i with
  | nil => simp [Rows.length] at h
  | cons y cc nx _ ihn =>
    cases i with
    | zero => simp [node_at]
    | succ i =>
      simp only [Rows.length] at h
      simpa [node_at] using ihn i (by omega)

theorem n_flagged_clear_le (rs : Rows) (q : GtkTreePath) :
    (set_row rs q (fun x => { x with S_ACTIVE := false })).n_flagged ≤ rs.n_flagged := by
  cases h : node_at rs q with
  | none => rw [set_row_none _ _ _ h]
  | some xc =>
    have := n_flagged_set_row rs q (fun x => { x with S_ACTIVE := false }) xc.1 xc.2 h
    simp only [Bool.false_eq_true, if_false] at this
    omega

theorem stree_select_first_frame_first (s : State) (b : Bool) (p : GtkTreePath)
    (x y : Row) (cc nx : Rows) (f : frame)
    (hreg : gtk_tree_row_reference_get_path
      (g_hash_table_lookup s.threads s.active_thread_id) = some p)
    (hrow : node_at s.store p = some (x, Rows.cons y cc nx)) (hf : y.S_FRAME = some f) :
    node_at s.store (p ++ [0]) = some (y, cc)
      ∧ ∃ calls, stree_select_first_frame s b = Outcome.done
        { (if b then { set_active s (p ++ [0]) true with active_frame_index := 0 } else s) with
          selection := some (p ++ [0]), calls := calls } := by
  have hchild : node_at s.store (p ++ [0]) = some (y, cc) := by
    rw [node_at_append _ p [0] _ _ hrow (by simp)]
    rfl
  refine ⟨hchild, ?_⟩
  cases b with
  | false =>
    obtain ⟨calls, h⟩ := gtk_tree_selection_select_path_frame s (p ++ [0])
      (fun _ => ⟨y, cc, f, hchild, hf⟩)
    refine ⟨calls, ?_⟩
    simp only [stree_select_first_frame, hreg, gtk_tree_model_get_iter, hrow,
      Option.isSome_some, if_true, gtk_tree_model_iter_children]
    exact h
  | true =>
    obtain ⟨calls, h⟩ := gtk_tree_selection_select_path_frame
      { set_active s (p ++ [0]) true with active_frame_index := 0 } (p ++ [0])
      (fun _ => ⟨_, cc, f, node_at_set_row_same _ _ _ _ _ hchild, hf⟩)
    refine ⟨calls, ?_⟩
    simp only [stree_select_first_frame, hreg, gtk_tree_model_get_iter, hrow,
      Option.isSome_some, if_true, gtk_tree_model_iter_children]
    exact h

theorem arrow_click_step (s : State) (t f : Nat)
    (hreg : gtk_tree_row_reference_get_path
      (g_hash_table_lookup s.threads s.active_thread_id) = some [t])
    (hrow : (node_at s.store [t, f]).isSome)
    (hne : (f : Int) ≠ s.active_frame_index) :
    on_frame_arrow_clicked s [t, f]
      = Outcome.done (set_active { s with
          store := (if 0 ≤ s.active_frame_index then
              set_row s.store [t, s.active_frame_index.toNat]
                (fun x => { x with S_ACTIVE := false })
            else s.store)
          active_frame_index := f
          calls := s.calls ++ [Call.select_frame f] } [t, f] true) := by
  by_cases h0 : 0 ≤ s.active_frame_index
  · by_cases hold : (node_at s.store [t, s.active_frame_index.toNat]).isSome
    · simp [on_frame_arrow_clicked, hne, hreg, h0, gtk_tree_model_get_iter, hold, set_active,
        node_at_set_row_isSome, hrow]
    · have hnone : node_at s.store [t, s.active_frame_index.toNat] = none := by
        simpa using hold
      simp [on_frame_arrow_clicked, hne, hreg, h0, gtk_tree_model_get_iter, hnone, set_active,
        hrow, set_row_none _ _ _ hnone]
  · simp [on_frame_arrow_clicked, hne, hreg, h0, gtk_tree_model_get_iter, set_active, hrow]

theorem set_active_flagged (s : State) (q : GtkTreePath)
    (h : (node_at s.store q).isSome) :
    ∃ y cc, node_at (set_active s q true).store q = some (y, cc) ∧ y.S_ACTIVE = true := by
  cases hq : node_at s.store q with
  | none => simp [hq] at h
  | some yc =>
    exact ⟨_, yc.2, node_at_set_row_same _ _ yc.1 yc.2 _ hq, rfl⟩

theorem step_n_flagged (s s' : State) (op : Op) (h : op.apply s = Outcome.done s')
    (h1 : op ≠ Op.select_first_frame true) (h2 : ∀ q, op ≠ Op.frame_arrow_clicked q) :
    s'.store.n_flagged ≤ s.store.n_flagged := by
  cases op with
  | add_thread t =>
    simp only [Op.apply, Outcome.done.injEq] at h
    subst h
    exact le_of_eq (stree_add_thread_keeps s t).1
  | remove_thread t => exact (stree_remove_thread_keeps s s' t h).1
  | add f => exact le_of_eq (stree_add_keeps s s' f h).1
  | remove_frames => exact (stree_remove_frames_keeps s s' h).1
  | clear =>
    simp only [Op.apply, Outcome.done.injEq] at h
    subst h
    simp [stree_clear, gtk_tree_store_clear, Rows.n_flagged]
  | set_active_thread_id t =>
    simp only [Op.apply, Outcome.done.injEq] at h
    subst h
    simp [stree_set_active_thread_id]
  | select_first_frame b =>
    cases b with
    | true => exact absurd rfl h1
    | false => exact le_of_eq ((stree_select_first_frame_keeps s s' false h).1 rfl)
  | frame_arrow_clicked q => exact absurd rfl (h2 q)

theorem step_active_frame_index (s s' : State) (op : Op) (h : op.apply s = Outcome.done s')
    (h0 : 0 ≤ s.active_frame_index) : 0 ≤ s'.active_frame_index := by
  cases op with
  | add_thread t =>
    simp only [Op.apply, Outcome.done.injEq] at h
    subst h
    rw [(stree_add_thread_keeps s t).2.1]; exact h0
  | remove_thread t => rw [(stree_remove_thread_keeps s s' t h).2.1]; exact h0
  | add f => rw [(stree_add_keeps s s' f h).2.1]; exact h0
  | remove_frames => rw [(stree_remove_frames_keeps s s' h).2.1]; exact h0
  | clear =>
    simp only [Op.apply, Outcome.done.injEq] at h
    subst h
    exact h0
  | set_active_thread_id t =>
    simp only [Op.apply, Outcome.done.injEq] at h
    subst h
    exact h0
  | select_first_frame b =>
    rcases (stree_select_first_frame_keeps s s' b h).2.1 with e | e <;> rw [e]
    exact h0
  | frame_arrow_clicked q =>
    rcases (on_frame_arrow_clicked_keeps s s' q h).1 with e | ⟨i, e⟩ <;> rw [e]
    · exact h0
    · exact Int.ofNat_nonneg i

theorem run_active_frame_index (ops : List Op) (s s' : State)
    (h : run s ops = Outcome.done s') (h0 : 0 ≤ s.active_frame_index) :
    0 ≤ s'.active_frame_index := by
  induction ops generalizing s with
  | nil =>
    simp only [run, Outcome.done.injEq] at h
    subst h
    exact h0
  | cons op ops ih =>
    simp only [run] at h
    cases hop : op.apply s with
    | done s1 =>
      simp only [hop] at h
      exact ih s1 h (step_active_frame_index s s1 op hop h0)
    | undefined => simp [hop] at h
    | out_of_fuel => simp [hop] at h

/-! ## The example states are reached from the initial state -/

theorem S_thread_reached :
    run State.init [Op.add_thread 1, Op.set_active_thread_id 1] = Outcome.done S_thread := by
  decide

theorem S_frames_reached : run S_thread [Op.add F0, Op.add F1] = Outcome.done S_frames := by
  decide

theorem S_flagged_reached :
    ∃ s, run S_frames [Op.select_first_frame true] = Outcome.done s
      ∧ s.store = S_flagged.store ∧ s.threads = S_flagged.threads
      ∧ s.active_thread_id = S_flagged.active_thread_id
      ∧ s.active_frame_index = S_flagged.active_frame_index :=
  ⟨_, rfl, by decide, by decide, by decide, by decide⟩

/-! ## C1: order of the thread rows -/

/-- Claim C1, the code at the failing input: after `stree_add_thread (1)`,
`stree_add_thread (3)`, `stree_add_thread (2)` the top-level rows are those of
the threads 1 and 3 only; the row of thread 2 is the first child of the row of
thread 3 (path `[1, 0]`), where its reference points. -/
theorem stree_add_thread_nests :
    ∃ s, run State.init [Op.add_thread 1, Op.add_thread 3, Op.add_thread 2] = Outcome.done s
      ∧ root_thread_ids s = [1, 3]
      ∧ g_hash_table_lookup s.threads 2 = some (some [1, 0])
      ∧ (node_at s.store [1, 0]).map (fun n => n.1.S_THREAD_ID) = some 2 :=
  ⟨_, rfl, by decide, by decide, by decide⟩

/-! ## C2: order of the frames of a thread -/

/-- Claim C3, counterexample.  First run: thread 1 with the frames `F0`, `F1`;
`stree_select_first_frame (TRUE)`, an arrow click on row `[0, 1]`, and
`stree_select_first_frame (TRUE)` again leave both frame rows flagged.  Second
run: after `stree_select_first_frame (TRUE)` on thread 1,
`stree_set_active_thread_id (2)` makes a thread without frames the active one
while the frame row of thread 1 keeps its flag. -/
theorem active_flag_counterexample :
    (∃ s, run State.init
        [Op.add_thread 1, Op.set_active_thread_id 1, Op.add F0, Op.add F1,
          Op.select_first_frame true, Op.frame_arrow_clicked [0, 1],
          Op.select_first_frame true] = Outcome.done s
      ∧ s.store.n_flagged = 2
      ∧ (node_at s.store [0, 0]).map (fun n => (n.1.S_FRAME, n.1.S_ACTIVE)) = some (some F0, true)
      ∧ (node_at s.store [0, 1]).map (fun n => (n.1.S_FRAME, n.1.S_ACTIVE)) = some (some F1, true))
    ∧ (∃ s, run State.init
        [Op.add_thread 1, Op.add_thread 2, Op.set_active_thread_id 1, Op.add F0,
          Op.select_first_frame true, Op.set_active_thread_id 2] = Outcome.done s
      ∧ gtk_tree_row_reference_get_path
          (g_hash_table_lookup s.threads s.active_thread_id) = some [1]
      ∧ frames_at s [1] = some []
      ∧ s.store.n_flagged = 1
      ∧ (node_at s.store [0, 0]).map (fun n => (n.1.S_FRAME, n.1.S_ACTIVE))
          = some (some F0, true)) :=
  ⟨⟨_, rfl, by decide, by decide, by decide⟩, ⟨_, rfl, by decide, by decide, by decide, by decide⟩⟩

/-- Claim C3, as amended.
(a) Every call of a mutator other than `stree_select_first_frame (TRUE)` and an
arrow click, when it returns, leaves no more rows with the active flag set than
there were (rows of any kind, at any depth); `stree_set_active_thread_id` leaves
every row as it was.
(b) When the reference of the active thread leads to its row and the first row
below it holds a frame: `stree_select_first_frame (TRUE)`, called when no row of
the tree is flagged or when that first row is the only flagged row, returns and
leaves exactly one flagged row in the tree, that first row.
(c) When the reference of the active thread leads to a top-level row `t` and
`[t, f]` is a row below it with `f` different from `active_frame_index`: an
arrow click on `[t, f]` returns, and all it changes in the store is that the
flag of the row `[t, active_frame_index]` is cleared (when there is such a row)
and the flag of `[t, f]` is set; called when no row of the tree is flagged or
when the only flagged row is `[t, active_frame_index]`, it leaves exactly one
flagged row in the tree, `[t, f]`.
Nothing is stated for a thread row that is not top-level, for a first row that
holds no frame, or for the two calls in other states. -/
theorem active_flag_steps :
    (∀ (s s' : State) (op : Op), op.apply s = Outcome.done s' →
      op ≠ Op.select_first_frame true → (∀ q, op ≠ Op.frame_arrow_clicked q) →
      s'.store.n_flagged ≤ s.store.n_flagged)
    ∧ (∀ (s : State) (thread_id : Int),
      (stree_set_active_thread_id s thread_id).store = s.store)
    ∧ (∀ (s : State) (p : GtkTreePath) (x y : Row) (cc nx : Rows) (f : frame),
      gtk_tree_row_reference_get_path
        (g_hash_table_lookup s.threads s.active_thread_id) = some p →
      node_at s.store p = some (x, Rows.cons y cc nx) → y.S_FRAME = some f →
      (s.store.n_flagged = 0 ∨ (s.store.n_flagged = 1 ∧ y.S_ACTIVE = true)) →
      ∃ s', stree_select_first_frame s true = Outcome.done s'
        ∧ s'.store.n_flagged = 1
        ∧ ∃ y' cc', node_at s'.store (p ++ [0]) = some (y', cc') ∧ y'.S_ACTIVE = true)
    ∧ (∀ (s : State) (t f : Nat),
      gtk_tree_row_reference_get_path
        (g_hash_table_lookup s.threads s.active_thread_id) = some [t] →
      (node_at s.store [t, f]).isSome → (f : Int) ≠ s.active_frame_index →
      ∃ s', on_frame_arrow_clicked s [t, f] = Outcome.done s'
        ∧ s'.store = set_row
            (if 0 ≤ s.active_frame_index then
              set_row s.store [t, s.active_frame_index.toNat]
                (fun x => { x with S_ACTIVE := false })
            else s.store)
            [t, f] (fun x => { x with S_ACTIVE := true })
        ∧ (∃ y' cc', node_at s'.store [t, f] = some (y', cc') ∧ y'.S_ACTIVE = true)
        ∧ ((s.store.n_flagged = 0 ∨ (s.store.n_flagged = 1 ∧ ∃ k : Nat,
              s.active_frame_index = k
              ∧ ∃ z zc, node_at s.store [t, k] = some (z, zc) ∧ z.S_ACTIVE = true)) →
            s'.store.n_flagged = 1)) := by
  refine ⟨step_n_flagged, fun _ _ => rfl, ?_, ?_⟩
  · intro s p x y cc nx f hreg hrow hf hcount
    obtain ⟨hchild, calls, h⟩ := stree_select_first_frame_first s true p x y cc nx f hreg hrow hf
    refine ⟨_, h, ?_, _, cc, node_at_set_row_same _ _ _ _ _ hchild, rfl⟩
    have hn := n_flagged_set_row s.store (p ++ [0]) (fun r => { r with S_ACTIVE := true })
      y cc hchild
    simp only [if_true] at hn
    show (set_row s.store (p ++ [0]) (fun r => { r with S_ACTIVE := true })).n_flagged = 1
    rcases hcount with h0 | ⟨h1, hy⟩
    · have hy : y.S_ACTIVE = false := by
        cases hya : y.S_ACTIVE with
        | false => rfl
        | true => have := n_flagged_pos _ _ _ _ hchild hya; omega
      simp only [hy, Bool.false_eq_true, if_false] at hn
      omega
    · simp only [hy, if_true] at hn
      omega
  · intro s t f hreg hrow hne
    have h := arrow_click_step s t f hreg hrow hne
    have hrow1 : (node_at (if 0 ≤ s.active_frame_index then
          set_row s.store [t, s.active_frame_index.toNat]
            (fun x => { x with S_ACTIVE := false })
        else s.store) [t, f]).isSome := by
      split
      · rw [node_at_set_row_isSome]; exact hrow
      · exact hrow
    cases hy1 : node_at (if 0 ≤ s.active_frame_index then
          set_row s.store [t, s.active_frame_index.toNat]
            (fun x => { x with S_ACTIVE := false })
        else s.store) [t, f] with
    | none => simp [hy1] at hrow1
    | some yc =>
      obtain ⟨y1, c1⟩ := yc
      refine ⟨_, h, rfl, ⟨_, c1, node_at_set_row_same _ _ _ _ _ hy1, rfl⟩, ?_⟩
      intro hcount
      have hstore1 : (if 0 ≤ s.active_frame_index then
            set_row s.store [t, s.active_frame_index.toNat]
              (fun x => { x with S_ACTIVE := false })
          else s.store).n_flagged = 0 := by
        rcases hcount with h0 | ⟨h1, k, hk, z, zc, hz, hzf⟩
        · split
          · have := n_flagged_clear_le s.store [t, s.active_frame_index.toNat]
            omega
          · exact h0
        · have hk0 : 0 ≤ s.active_frame_index := by omega
          have hkn : s.active_frame_index.toNat = k := by omega
          simp only [hk0, if_true, hkn]
          have hn := n_flagged_set_row s.store [t, k] (fun x => { x with S_ACTIVE := false })
            z zc hz
          simp only [hzf, if_true, Bool.false_eq_true, if_false] at hn
          omega
      have hn := n_flagged_set_row _ [t, f] (fun r => { r with S_ACTIVE := true }) y1 c1 hy1
      have hy : y1.S_ACTIVE = false := by
        cases hya : y1.S_ACTIVE with
        | false => rfl
        | true => have := n_flagged_pos _ _ _ _ hy1 hya; omega
      simp only [hy, Bool.false_eq_true, if_false, if_true, hstore1] at hn
      simp only [set_active]
      omega

/-- Witness of `active_flag_steps`: `stree_add` in `S_flagged` returns and leaves
no more flagged rows than the one there was; `stree_select_first_frame (TRUE)`
in `S_frames` (no flagged row) leaves one; an arrow click on row `[0, 1]` in
`S_flagged` (row `[0, 0]` flagged, `active_frame_index = 0`) leaves one. -/
theorem active_flag_steps_witness :
    (∃ s', (Op.add F1).apply S_flagged = Outcome.done s'
        ∧ s'.store.n_flagged ≤ S_flagged.store.n_flagged)
    ∧ (∃ s', stree_select_first_frame S_frames true = Outcome.done s'
        ∧ s'.store.n_flagged = 1)
    ∧ (∃ s', on_frame_arrow_clicked S_flagged [0, 1] = Outcome.done s'
        ∧ s'.store.n_flagged = 1) := by
  refine ⟨?_, ?_, ?_⟩
  · exact ⟨_, rfl, active_flag_steps.1 S_flagged _ (Op.add F1) rfl (by decide)
      (fun q hq => by cases hq)⟩
  · obtain ⟨s', h, hn, -⟩ := active_flag_steps.2.2.1 S_frames [0] ⟨none, 1, false⟩
      ⟨some F0, 0, false⟩ Rows.nil (Rows.cons ⟨some F1, 0, false⟩ Rows.nil Rows.nil) F0
      (by decide) (by decide) rfl (Or.inl (by decide))
    exact ⟨s', h, hn⟩
  · obtain ⟨s', h, -, -, hn⟩ := active_flag_steps.2.2.2 S_flagged 0 1 (by decide) (by decide)
      (by decide)
    exact ⟨s', h, hn (Or.inr ⟨by decide, 0, rfl, ⟨some F0, 0, true⟩, Rows.nil, by decide, rfl⟩)⟩

/-! ## C4: the arrow click -/

/-- Claim C4, the code at the failing input: `stree_add_thread (3)`,
`stree_add_thread (2)` put the row of thread 2 below the row of thread 3, at
`[0, 0]` (the defect of C1); with thread 2 active and the frames `F0`, `F1`
added, its frame rows are `[0, 0, 0]` and `[0, 0, 1]` and `active_frame_index`
is 0.  An arrow click on its frame row 1, path `[0, 0, 1]`, compares
`indices[1] = 0` with `active_frame_index` and returns the state it was given:
`active_frame_index` stays 0 and `select_frame` is not called. -/
theorem on_frame_arrow_clicked_nested :
    ∃ s, run State.init
        [Op.add_thread 3, Op.add_thread 2, Op.set_active_thread_id 2, Op.add F0, Op.add F1]
        = Outcome.done s
      ∧ gtk_tree_row_reference_get_path
          (g_hash_table_lookup s.threads s.active_thread_id) = some [0, 0]
      ∧ frames_at s [0, 0] = some [some F0, some F1]
      ∧ s.active_frame_index = 0
      ∧ s.calls = []
      ∧ on_frame_arrow_clicked s [0, 0, 1] = Outcome.done s :=
  ⟨_, rfl, by decide, by decide, by decide, by decide, by decide⟩

/-- The arrow click on a two-level tree.  Let the row reference of the active
thread lead to the top-level row `t`, and let `[t, f]` be a row below it.  An arrow click on that row with
`f` different from `active_frame_index` returns with `active_frame_index = f`,
the same `active_thread_id`, one more callback call in the log, `select_frame f`,
and the active flag of the clicked row set.  A click with `f` equal to
`active_frame_index` returns the state it was given: no flag, no call. -/
theorem on_frame_arrow_clicked_spec (s : State) (t f : Nat)
    (hreg : gtk_tree_row_reference_get_path
      (g_hash_table_lookup s.threads s.active_thread_id) = some [t])
    (hrow : (node_at s.store [t, f]).isSome) :
    ((f : Int) ≠ s.active_frame_index →
      ∃ s', on_frame_arrow_clicked s [t, f] = Outcome.done s'
        ∧ s'.active_frame_index = f
        ∧ s'.active_thread_id = s.active_thread_id
        ∧ s'.calls = s.calls ++ [Call.select_frame f]
        ∧ s'.threads = s.threads
        ∧ ∃ y cc, node_at s'.store [t, f] = some (y, cc) ∧ y.S_ACTIVE = true)
    ∧ ((f : Int) = s.active_frame_index → on_frame_arrow_clicked s [t, f] = Outcome.done s) := by
  constructor
  · intro hne
    have hsome : (node_at (if 0 ≤ s.active_frame_index then
          set_row s.store [t, s.active_frame_index.toNat]
            (fun x => { x with S_ACTIVE := false })
        else s.store) [t, f]).isSome := by
      split
      · rw [node_at_set_row_isSome]; exact hrow
      · exact hrow
    exact ⟨_, arrow_click_step s t f hreg hrow hne, rfl, rfl, rfl, rfl,
      set_active_flagged _ _ hsome⟩
  · intro heq
    simp [on_frame_arrow_clicked, heq]

/-- Witness of `on_frame_arrow_clicked_spec` in `S_flagged` (`active_frame_index = 0`):
a click on row `[0, 1]` gives `active_frame_index = 1` and the one call
`select_frame 1`; a click on row `[0, 0]` changes nothing. -/
theorem on_frame_arrow_clicked_spec_witness :
    (∃ s', on_frame_arrow_clicked S_flagged [0, 1] = Outcome.done s'
      ∧ s'.active_frame_index = 1
      ∧ s'.active_thread_id = 1
      ∧ s'.calls = [Call.select_frame 1])
    ∧ on_frame_arrow_clicked S_flagged [0, 0] = Outcome.done S_flagged := by
  obtain ⟨s', h, h1, h2, h3, -⟩ :=
    (on_frame_arrow_clicked_spec S_flagged 0 1 (by decide) (by decide)).1 (by decide)
  exact ⟨⟨s', h, h1, h2, h3⟩,
    (on_frame_arrow_clicked_spec S_flagged 0 0 (by decide) (by decide)).2 (by decide)⟩

/-! ## C5: row references after `stree_remove_thread` -/

/-- Claim C5, the code at the failing input: after the three calls of C1,
`stree_remove_thread (3)` takes the row of thread 2 out of the store together
with the row of thread 3.  The table then holds the ids 1 and 2, the reference
of thread 2 has no path, and the only top-level row is that of thread 1. -/
theorem stree_remove_thread_drops_nested :
    ∃ s, run State.init
        [Op.add_thread 1, Op.add_thread 3, Op.add_thread 2, Op.remove_thread 3] = Outcome.done s
      ∧ registered_ids s = [1, 2]
      ∧ g_hash_table_lookup s.threads 2 = some none
      ∧ gtk_tree_row_reference_get_path (g_hash_table_lookup s.threads 1) = some [0]
      ∧ root_thread_ids s = [1]
      ∧ s.store = Rows.cons ⟨none, 1, false⟩ Rows.nil Rows.nil :=
  ⟨_, rfl, by decide, by decide, by decide, by decide, by decide⟩

/-! ## C6: `stree_select_first_frame` -/

/-- Claim C6, the code at the failing input: after `stree_add_thread (1)`,
`stree_add_thread (3)`, `stree_add_thread (2)` the row of thread 2 is the only
row below the row of thread 3 (the defect of C1).  With thread 3 active, it is
registered and has no frame, yet `gtk_tree_model_iter_children` finds a first
child: `stree_select_first_frame` selects the row of thread 2 (and flags it
when `make_active`), and `on_selection_changed`, run by the selection change on
a row of depth 2, reads `f->have_source` with `f` NULL.  The call has no defined
outcome, for either value of `make_active`. -/
theorem stree_select_first_frame_nested :
    ∃ s, run State.init
        [Op.add_thread 1, Op.add_thread 3, Op.add_thread 2, Op.set_active_thread_id 3]
        = Outcome.done s
      ∧ gtk_tree_row_reference_get_path
          (g_hash_table_lookup s.threads s.active_thread_id) = some [1]
      ∧ (node_at s.store [1]).map (fun n => n.2.toList)
          = some [(⟨none, 2, false⟩ : Row)]
      ∧ frames_at s [1] = some [none]
      ∧ stree_select_first_frame s false = Outcome.undefined
      ∧ stree_select_first_frame s true = Outcome.undefined :=
  ⟨_, rfl, by decide, by decide, by decide, by decide, by decide⟩

/-- The call `stree_select_first_frame` on a tree whose thread rows hold frame
rows.  Let the row reference of the active thread lead to its row.  If the
row has a first child and that child is a frame row, `stree_select_first_frame`
returns with that child (row 0 of the thread) selected; with `make_active` it
has set the active flag of that row, changed no other row, and set
`active_frame_index` to 0; without `make_active` the store and
`active_frame_index` are as before.  If the row has no child, the call returns
with the whole state (selection, `active_frame_index`, every flag) as before. -/
theorem stree_select_first_frame_spec (s : State) (make_active : Bool) (p : GtkTreePath)
    (x : Row) (c : Rows)
    (hreg : gtk_tree_row_reference_get_path
      (g_hash_table_lookup s.threads s.active_thread_id) = some p)
    (hrow : node_at s.store p = some (x, c)) :
    (∀ y cc nx f, c = Rows.cons y cc nx → y.S_FRAME = some f →
      ∃ s', stree_select_first_frame s make_active = Outcome.done s'
        ∧ s'.selection = some (p ++ [0])
        ∧ (make_active = true →
            s'.store = set_row s.store (p ++ [0]) (fun r => { r with S_ACTIVE := true })
            ∧ s'.active_frame_index = 0)
        ∧ (make_active = false →
            s'.store = s.store ∧ s'.active_frame_index = s.active_frame_index)
        ∧ s'.threads = s.threads ∧ s'.active_thread_id = s.active_thread_id)
    ∧ (c = Rows.nil → stree_select_first_frame s make_active = Outcome.done s) := by
  constructor
  · intro y cc nx f hc hf
    subst hc
    obtain ⟨-, calls, h⟩ :=
      stree_select_first_frame_first s make_active p x y cc nx f hreg hrow hf
    refine ⟨_, h, rfl, ?_, ?_, ?_, ?_⟩
    · intro hb
      subst hb
      exact ⟨rfl, rfl⟩
    · intro hb
      subst hb
      exact ⟨rfl, rfl⟩
    · cases make_active <;> rfl
    · cases make_active <;> rfl
  · intro hc
    subst hc
    simp [stree_select_first_frame, hreg, gtk_tree_model_get_iter, hrow,
      gtk_tree_model_iter_children]

/-- Witness of `stree_select_first_frame_spec`: in `S_frames` with `make_active`
the call selects row `[0, 0]` and sets `active_frame_index` to 0; in `S_thread`
(no frame) the call changes nothing. -/
theorem stree_select_first_frame_spec_witness :
    (∃ s', stree_select_first_frame S_frames true = Outcome.done s'
      ∧ s'.selection = some [0, 0] ∧ s'.store = S_flagged.store ∧ s'.active_frame_index = 0)
    ∧ stree_select_first_frame S_thread false = Outcome.done S_thread := by
  obtain ⟨s', h, hsel, ht, -⟩ :=
    (stree_select_first_frame_spec S_frames true [0] ⟨none, 1, false⟩
      (Rows.cons ⟨some F0, 0, false⟩ Rows.nil (Rows.cons ⟨some F1, 0, false⟩ Rows.nil Rows.nil))
      (by decide) (by decide)).1 ⟨some F0, 0, false⟩ Rows.nil
      (Rows.cons ⟨some F1, 0, false⟩ Rows.nil Rows.nil) F0 rfl rfl
  exact ⟨⟨s', h, hsel, (ht rfl).1, (ht rfl).2⟩,
    (stree_select_first_frame_spec S_thread false [0] ⟨none, 1, false⟩ Rows.nil
      (by decide) (by decide)).2 rfl⟩

/-! ## C7: `stree_remove_frames` -/

/-- Claim C8, the code at the failing input: `stree_add_thread (3)`,
`stree_add_thread (2)` put the row of thread 2 at `[0, 0]` (the defect of C1);
with thread 2 active, `stree_add (F0)` puts the frame `F0`, which has a source,
at `[0, 0, 0]`, and `stree_select_first_frame (FALSE)` selects that row.  With
this frame row selected, `on_selection_changed` tests `2 == depth`, finds depth
3, and returns without calling `move_to_line`.  With the row of thread 2
selected, a thread row at depth 2, it reads `f->have_source` with `f` NULL. -/
theorem on_selection_changed_nested :
    ∃ s, run State.init
        [Op.add_thread 3, Op.add_thread 2, Op.set_active_thread_id 2, Op.add F0,
          Op.select_first_frame false] = Outcome.done s
      ∧ s.selection = some [0, 0, 0]
      ∧ (node_at s.store [0, 0, 0]).map (fun n => n.1.S_FRAME) = some (some F0)
      ∧ F0.have_source = true
      ∧ s.calls = []
      ∧ on_selection_changed s = Outcome.done s
      ∧ (node_at s.store [0, 0]).map (fun n => (n.1.S_FRAME, n.1.S_THREAD_ID)) = some (none, 2)
      ∧ on_selection_changed { s with selection := some [0, 0] } = Outcome.undefined :=
  ⟨_, rfl, by decide, by decide, by decide, by decide, by decide, by decide, by decide⟩

/-- The handler `on_selection_changed` on a two-level tree, by the selected row.  A row at depth 2 (a
frame row, position `(t, i)`) whose frame has `have_source` set: `move_to_line`
is called once, with the file and the line of that frame.  A frame row whose
frame has `have_source` clear, a top-level row (a thread row), or no selected
row: no call.  In every case the call returns and the store, the table, the
active thread and frame and the selection are as before. -/
theorem on_selection_changed_spec (s : State) :
    (∀ t i x c f, s.selection = some [t, i] → node_at s.store [t, i] = some (x, c) →
      x.S_FRAME = some f → f.have_source = true →
        on_selection_changed s
          = Outcome.done { s with calls := s.calls ++ [Call.move_to_line f.file f.line] })
    ∧ (∀ t i x c f, s.selection = some [t, i] → node_at s.store [t, i] = some (x, c) →
      x.S_FRAME = some f → f.have_source = false → on_selection_changed s = Outcome.done s)
    ∧ (∀ t, s.selection = some [t] → on_selection_changed s = Outcome.done s)
    ∧ (s.selection = none → on_selection_changed s = Outcome.done s) := by
  refine ⟨?_, ?_, ?_, ?_⟩
  · intro t i x c f hsel hx hf hs
    simp [on_selection_changed, hsel, hx, hf, hs]
  · intro t i x c f hsel hx hf hs
    simp [on_selection_changed, hsel, hx, hf, hs]
  · intro t hsel
    simp [on_selection_changed, hsel]
  · intro hsel
    simp [on_selection_changed, hsel]

/-- Witness of `on_selection_changed_spec`: in `S_frames` with row `[0, 0]`
selected (frame `F0`, with source) `move_to_line` is called once with the file
and line of `F0`; with row `[0, 1]` selected (frame `F1`, without source), with
the thread row `[0]` selected, and with nothing selected, no call is made. -/
theorem on_selection_changed_spec_witness :
    on_selection_changed { S_frames with selection := some [0, 0] }
        = Outcome.done { S_frames with
            selection := some [0, 0]
            calls := [Call.move_to_line (some "/src/main.c") 12] }
    ∧ on_selection_changed { S_frames with selection := some [0, 1] }
        = Outcome.done { S_frames with selection := some [0, 1] }
    ∧ on_selection_changed { S_frames with selection := some [0] }
        = Outcome.done { S_frames with selection := some [0] }
    ∧ on_selection_changed S_frames = Outcome.done S_frames :=
  ⟨(on_selection_changed_spec { S_frames with selection := some [0, 0] }).1
      0 0 ⟨some F0, 0, false⟩ Rows.nil F0 rfl (by decide) rfl rfl,
    (on_selection_changed_spec { S_frames with selection := some [0, 1] }).2.1
      0 1 ⟨some F1, 0, false⟩ Rows.nil F1 rfl (by decide) rfl rfl,
    (on_selection_changed_spec { S_frames with selection := some [0] }).2.2.1 0 rfl,
    (on_selection_changed_spec S_frames).2.2.2 rfl⟩

/-! ## C9: range of `active_frame_index` -/

/-- Claim C9, counterexample: thread 1 with the frames `F0`, `F1`; an arrow
click on row `[0, 1]` sets `active_frame_index` to 1; `stree_remove_frames` and
one `stree_add` leave the active thread registered with one frame and
`active_frame_index` still 1, which is no index of that frame sequence. -/
theorem active_frame_index_counterexample :
    ∃ s, run State.init
        [Op.add_thread 1, Op.set_active_thread_id 1, Op.add F0, Op.add F1,
          Op.frame_arrow_clicked [0, 1], Op.remove_frames, Op.add F0] = Outcome.done s
      ∧ gtk_tree_row_reference_get_path
          (g_hash_table_lookup s.threads s.active_thread_id) = some [0]
      ∧ frames_at s [0] = some [some F0]
      ∧ s.active_frame_index = 1
      ∧ ¬ s.active_frame_index < 1 :=
  ⟨_, rfl, by decide, by decide, by decide, by decide⟩

/-- Claim C9, as amended.
(a) In every state reached from the initial state by calls of the mutators,
`0 <= active_frame_index`.
(b) No mutator other than `stree_select_first_frame (TRUE)` and an arrow click
changes `active_frame_index`.
(c) When the reference of the active thread leads to its row and the first row
below it holds a frame: `stree_select_first_frame (TRUE)` returns, the reference
still leads to the row, and `active_frame_index` is 0, an index into the rows
below it.
(d) When the reference of the active thread leads to a top-level row `t` that
has more than `f` rows below it: an arrow click on `[t, f]` returns, the
reference still leads to the row, and `active_frame_index` is `f`, an index
into the rows below it.
Nothing is stated for a thread row that is not top-level or for a first row
that holds no frame. -/
theorem active_frame_index_bounds :
    (∀ (ops : List Op) (s : State), run State.init ops = Outcome.done s →
      0 ≤ s.active_frame_index)
    ∧ (∀ (s : State) (p : GtkTreePath) (x y : Row) (cc nx : Rows) (f : frame),
      gtk_tree_row_reference_get_path
        (g_hash_table_lookup s.threads s.active_thread_id) = some p →
      node_at s.store p = some (x, Rows.cons y cc nx) → y.S_FRAME = some f →
      ∃ s' x' c', stree_select_first_frame s true = Outcome.done s'
        ∧ gtk_tree_row_reference_get_path
            (g_hash_table_lookup s'.threads s'.active_thread_id) = some p
        ∧ node_at s'.store p = some (x', c')
        ∧ s'.active_frame_index = 0
        ∧ 0 ≤ s'.active_frame_index ∧ s'.active_frame_index < c'.length)
    ∧ (∀ (s : State) (t f : Nat) (x : Row) (c : Rows),
      gtk_tree_row_reference_get_path
        (g_hash_table_lookup s.threads s.active_thread_id) = some [t] →
      node_at s.store [t] = some (x, c) → f < c.length →
      ∃ s' x' c', on_frame_arrow_clicked s [t, f] = Outcome.done s'
        ∧ gtk_tree_row_reference_get_path
            (g_hash_table_lookup s'.threads s'.active_thread_id) = some [t]
        ∧ node_at s'.store [t] = some (x', c')
        ∧ s'.active_frame_index = f
        ∧ 0 ≤ s'.active_frame_index ∧ s'.active_frame_index < c'.length)
    ∧ (∀ (s s' : State) (op : Op), op.apply s = Outcome.done s' →
      op ≠ Op.select_first_frame true → (∀ q, op ≠ Op.frame_arrow_clicked q) →
      s'.active_frame_index = s.active_frame_index) := by
  refine ⟨fun ops s h => run_active_frame_index ops State.init s h (le_refl _), ?_, ?_, ?_⟩
  · intro s p x y cc nx f hreg hrow hf
    obtain ⟨-, calls, h⟩ := stree_select_first_frame_first s true p x y cc nx f hreg hrow hf
    refine ⟨_, x, set_row (Rows.cons y cc nx) [0] (fun r => { r with S_ACTIVE := true }),
      h, hreg, node_at_set_row_child _ _ _ _ _ _ hrow, rfl, le_refl _, ?_⟩
    simp [set_row, Rows.length]
  · intro s t f x c hreg hrow hf
    have hsome : (node_at s.store [t, f]).isSome := by
      have := node_at_append s.store [t] [f] x c hrow (by simp)
      simp only [List.singleton_append] at this
      rw [this]
      exact node_at_child_isSome c f hf
    by_cases hne : (f : Int) = s.active_frame_index
    · refine ⟨s, x, c, by simp [on_frame_arrow_clicked, hne], hreg, hrow, hne.symm, ?_, ?_⟩
      · rw [← hne]; exact Int.ofNat_nonneg f
      · rw [← hne]; exact_mod_cast hf
    · have h := arrow_click_step s t f hreg hsome hne
      have hrow1 : ∃ c1, node_at (if 0 ≤ s.active_frame_index then
            set_row s.store [t, s.active_frame_index.toNat]
              (fun x => { x with S_ACTIVE := false })
          else s.store) [t] = some (x, c1) ∧ c1.length = c.length := by
        split
        · exact ⟨_, node_at_set_row_child s.store [t] x c _ _ hrow, Rows.length_set_row _ _ _⟩
        · exact ⟨c, hrow, rfl⟩
      obtain ⟨c1, hc1, hlen1⟩ := hrow1
      refine ⟨_, x, set_row c1 [f] (fun r => { r with S_ACTIVE := true }), h, hreg,
        node_at_set_row_child _ [t] x c1 f _ hc1, rfl, Int.ofNat_nonneg f, ?_⟩
      rw [Rows.length_set_row, hlen1]
      show (f : Int) < c.length
      exact_mod_cast hf
  · intro s s' op h h1 h2
    cases op with
    | add_thread t =>
      simp only [Op.apply, Outcome.done.injEq] at h
      subst h
      exact (stree_add_thread_keeps s t).2.1
    | remove_thread t => exact (stree_remove_thread_keeps s s' t h).2.1
    | add f => exact (stree_add_keeps s s' f h).2.1
    | remove_frames => exact (stree_remove_frames_keeps s s' h).2.1
    | clear =>
      simp only [Op.apply, Outcome.done.injEq] at h
      subst h
      rfl
    | set_active_thread_id t =>
      simp only [Op.apply, Outcome.done.injEq] at h
      subst h
      rfl
    | select_first_frame b =>
      cases b with
      | true => exact absurd rfl h1
      | false =>
        simp only [Op.apply, stree_select_first_frame] at h
        split at h
        · cases h
        · cases h; rfl
        · split at h
          · exact (gtk_tree_selection_select_path_done _ _ _ h).2.2.2
          · cases h; rfl
    | frame_arrow_clicked q => exact absurd rfl (h2 q)

/-- Witness of `active_frame_index_bounds`: the state of the C9 counterexample
has `0 <= active_frame_index`; `stree_select_first_frame (TRUE)` in `S_frames`
and an arrow click on row `[0, 1]` in `S_frames` leave `active_frame_index` an
index of the two frames; `stree_remove_frames` in `S_frames` returns and leaves
it as it was. -/
theorem active_frame_index_bounds_witness :
    (∃ s, run State.init
        [Op.add_thread 1, Op.set_active_thread_id 1, Op.add F0, Op.add F1,
          Op.frame_arrow_clicked [0, 1], Op.remove_frames, Op.add F0] = Outcome.done s
        ∧ 0 ≤ s.active_frame_index)
    ∧ (∃ s' x' c', stree_select_first_frame S_frames true = Outcome.done s'
        ∧ node_at s'.store [0] = some (x', c')
        ∧ 0 ≤ s'.active_frame_index ∧ s'.active_frame_index < c'.length)
    ∧ (∃ s' x' c', on_frame_arrow_clicked S_frames [0, 1] = Outcome.done s'
        ∧ node_at s'.store [0] = some (x', c')
        ∧ s'.active_frame_index = 1 ∧ s'.active_frame_index < c'.length)
    ∧ (∃ s', Op.remove_frames.apply S_frames = Outcome.done s'
        ∧ s'.active_frame_index = S_frames.active_frame_index) := by
  refine ⟨⟨_, rfl, active_frame_index_bounds.1
    [Op.add_thread 1, Op.set_active_thread_id 1, Op.add F0, Op.add F1,
      Op.frame_arrow_clicked [0, 1], Op.remove_frames, Op.add F0] _ rfl⟩, ?_, ?_, ?_⟩
  · obtain ⟨s', x', c', h, -, hrow, -, h0, h1⟩ := active_frame_index_bounds.2.1 S_frames [0]
      ⟨none, 1, false⟩ ⟨some F0, 0, false⟩ Rows.nil
      (Rows.cons ⟨some F1, 0, false⟩ Rows.nil Rows.nil) F0 (by decide) (by decide) rfl
    exact ⟨s', x', c', h, hrow, h0, h1⟩
  · obtain ⟨s', x', c', h, -, hrow, hf, -, h1⟩ := active_frame_index_bounds.2.2.1 S_frames 0 1
      ⟨none, 1, false⟩
      (Rows.cons ⟨some F0, 0, false⟩ Rows.nil (Rows.cons ⟨some F1, 0, false⟩ Rows.nil Rows.nil))
      (by decide) (by decide) (by decide)
    exact ⟨s', x', c', h, hrow, hf, h1⟩
  · exact ⟨_, rfl, active_frame_index_bounds.2.2.2 S_frames _ Op.remove_frames rfl (by decide)
      (fun q hq => by cases hq)⟩

/-! ## C10: `stree_add` without a registered active thread -/

/-- Claim C10, counterexample: in the initial state the table has no entry for
the active thread 0, and `stree_add (F0)` does not return with an error and the
tree as it was: the call has no defined outcome at all. -/
theorem stree_add_unregistered_counterexample :
    g_hash_table_lookup State.init.threads State.init.active_thread_id = none
      ∧ stree_add State.init F0 = Outcome.undefined
      ∧ ¬ ∃ s', stree_add State.init F0 = Outcome.done s' :=
  ⟨by decide, by decide, by
    intro ⟨s', h⟩
    have hu : stree_add State.init F0 = Outcome.undefined := by decide
    rw [hu] at h
    cases h⟩

/-- Claim C10, as amended.  In every state whose table has no entry for
`active_thread_id`, `stree_add` has no defined outcome, for every frame: it
reports no error and does not test the lookup; the NULL reference gives a NULL
path, the path lookup leaves the thread iterator unwritten, and the store is
asked to insert under that unwritten iterator. -/
theorem stree_add_unregistered (s : State) (f : frame)
    (h : g_hash_table_lookup s.threads s.active_thread_id = none) :
    stree_add s f = Outcome.undefined := by
  simp [stree_add, h, gtk_tree_row_reference_get_path, gtk_tree_model_get_iter]

/-- Witness of `stree_add_unregistered` in the initial state. -/
theorem stree_add_unregistered_witness :
    g_hash_table_lookup State.init.threads State.init.active_thread_id = none
      ∧ stree_add State.init F1 = Outcome.undefined :=
  ⟨by decide, stree_add_unregistered State.init F1 (by decide)⟩

end Stree
